import Mathlib

/-!
Shallow embedding of a minimal CHIP-8-style virtual machine (`src/src/main.rs`).
Machine state (`CPU`) holds 16 8-bit registers, 4096 bytes of memory, a
16-entry call stack of 16-bit return addresses, a stack pointer and a program
counter.  Fixed-size byte stores are embedded as total functions `Nat → Nat`
whose cells hold values below 256 (resp. 65536 for the stack); operations that
can abort the run (array index out of bounds, the explicit stack guards, the
unimplemented-opcode branch) return `Except Fault _`.
-/

/-- Pointwise update of a function-backed store: `setAt f i v` maps `i` to `v`
and every other index to its old value. -/
def setAt (f : Nat → Nat) (i v : Nat) : Nat → Nat :=
  fun j => if j = i then v else f j

/-- The processor state, mirroring `struct CPU` in the source. -/
structure CPU where
  registers : Nat → Nat
  position_in_memory : Nat
  memory : Nat → Nat
  stack : Nat → Nat
  stack_pointer : Nat

/-- The distinct ways a run can abort.  `stackOverflowAbort` is the explicit
guard in `call` (the source aborts with a stack-overflow message when
`stack_pointer > 16`); `stackSlotOutOfBounds` is an out-of-bounds index into
the 16-entry stack array; `stackUnderflowAbort` is the explicit guard in
`ret`; `memoryOutOfBounds` is an out-of-bounds index into the 4096-byte
memory; `unimplementedOpcode` is the catch-all arm of the dispatch, carrying
the offending instruction word. -/
inductive Fault where
  | stackOverflowAbort
  | stackSlotOutOfBounds
  | stackUnderflowAbort
  | memoryOutOfBounds
  | unimplementedOpcode (opcode : Nat)
deriving DecidableEq

/-- `CPU::read_opcode`: combine the bytes at `position_in_memory` and the next
address into one 16-bit word, `(byte0 << 8) | byte1`.  Indexing `memory[p]`
and `memory[p + 1]` is bounds-checked: either index at or beyond 4096 aborts. -/
def CPU.read_opcode (cpu : CPU) : Except Fault Nat :=
  let p := cpu.position_in_memory
  if p + 1 < 4096 then
    .ok ((cpu.memory p) <<< 8 ||| cpu.memory (p + 1))
  else
    .error .memoryOutOfBounds

/-- `CPU::call`: the guard aborts when `stack_pointer > 16` (the array length);
otherwise `stack[sp] = position_in_memory as u16` aborts at `sp = 16` (index
out of bounds) and at `sp < 16` stores the (truncated) program counter,
increments the stack pointer and jumps to `addr`. -/
def CPU.call (cpu : CPU) (addr : Nat) : Except Fault CPU :=
  let sp := cpu.stack_pointer
  if sp > 16 then
    .error .stackOverflowAbort
  else if sp < 16 then
    .ok { cpu with
      stack := setAt cpu.stack sp (cpu.position_in_memory % 65536),
      stack_pointer := sp + 1,
      position_in_memory := addr }
  else
    .error .stackSlotOutOfBounds

/-- `CPU::ret`: abort on an empty stack, otherwise decrement the stack pointer
and load the program counter from the popped slot (`stack[sp - 1]` is
bounds-checked against the stack length 16). -/
def CPU.ret (cpu : CPU) : Except Fault CPU :=
  if cpu.stack_pointer = 0 then
    .error .stackUnderflowAbort
  else
    let sp := cpu.stack_pointer - 1
    if sp < 16 then
      .ok { cpu with
        stack_pointer := sp,
        position_in_memory := cpu.stack sp }
    else
      .error .stackSlotOutOfBounds

/-- `CPU::add_xy`: wrapping 8-bit addition of `registers[y]` into
`registers[x]` (`u8::overflowing_add`), then the carry flag in register 15 is
unconditionally rewritten: 1 when the 8-bit addition overflowed, else 0. -/
def CPU.add_xy (cpu : CPU) (x y : Nat) : CPU :=
  let arg1 := cpu.registers x
  let arg2 := cpu.registers y
  let val := (arg1 + arg2) % 256
  let overflow_detected := 256 ≤ arg1 + arg2
  let written := setAt cpu.registers x val
  { cpu with
    registers := setAt written 0xF (if overflow_detected then 1 else 0) }

/-- The nibble split performed by the run loop: `c` is bits 12-15, `x` bits
8-11, `y` bits 4-7, `d` bits 0-3 of the instruction word.  Pure: a function of
the word alone. -/
def decode (opcode : Nat) : Nat × Nat × Nat × Nat :=
  ((opcode &&& 0xF000) >>> 12,
   (opcode &&& 0x0F00) >>> 8,
   (opcode &&& 0x00F0) >>> 4,
   opcode &&& 0x000F)

/-- The 12-bit address operand derived by the run loop: bits 0-11. -/
def nnnOf (opcode : Nat) : Nat :=
  opcode &&& 0xFFF

/-- Result of one fetch-decode-execute step: either the loop returns (HALT) or
it continues with the new state. -/
inductive StepResult where
  | halt (cpu : CPU)
  | next (cpu : CPU)

/-- The dispatch of the run loop on the decoded nibbles, applied to the state
whose program counter has already been advanced past the instruction.  The
catch-all arm is the source's unimplemented-opcode abort, carrying the
instruction word. -/
def CPU.exec (cpu : CPU) (opcode : Nat) : Except Fault StepResult :=
  let c := (decode opcode).1
  let x := (decode opcode).2.1
  let y := (decode opcode).2.2.1
  let d := (decode opcode).2.2.2
  let nnn := nnnOf opcode
  if c = 0 ∧ x = 0 ∧ y = 0 ∧ d = 0 then
    .ok (.halt cpu)
  else if c = 0 ∧ x = 0 ∧ y = 0xE ∧ d = 0xE then
    (cpu.ret).map .next
  else if c = 0x2 then
    (cpu.call nnn).map .next
  else if c = 0x8 ∧ d = 0x4 then
    .ok (.next (cpu.add_xy x y))
  else
    .error (.unimplementedOpcode opcode)

/-- One iteration of the run loop: fetch the instruction word, advance the
program counter by 2, then decode and execute. -/
def CPU.step (cpu : CPU) : Except Fault StepResult :=
  match cpu.read_opcode with
  | .error e => .error e
  | .ok opcode =>
    CPU.exec { cpu with position_in_memory := cpu.position_in_memory + 2 } opcode

/-- `CPU::run`, with explicit fuel so the loop is total in the embedding:
`.ok (some c)` is normal termination in state `c`, `.ok none` is fuel
exhaustion, `.error f` is an abort. -/
def CPU.run : Nat → CPU → Except Fault (Option CPU)
  | 0, _ => .ok none
  | fuel + 1, cpu =>
    match cpu.step with
    | .error e => .error e
    | .ok (.halt c) => .ok (some c)
    | .ok (.next c) => CPU.run fuel c

/-- The all-zero processor the example `main` constructs. -/
def initialCPU : CPU :=
  { registers := fun _ => 0
    position_in_memory := 0
    memory := fun _ => 0
    stack := fun _ => 0
    stack_pointer := 0 }

/-- The reference program of `main`: registers 0 and 1 seeded with 5 and 10,
two CALLs to 0x100 followed by HALT at the start of memory, and at 0x100 two
ADD R0,R1 instructions followed by RETURN. -/
def mainCPU : CPU :=
  { initialCPU with
    registers := setAt (setAt initialCPU.registers 0 5) 1 10
    memory :=
      setAt (setAt (setAt (setAt (setAt (setAt
      (setAt (setAt (setAt (setAt (setAt (setAt initialCPU.memory
        0x000 0x21) 0x001 0x00)
        0x002 0x21) 0x003 0x00)
        0x004 0x00) 0x005 0x00)
        0x100 0x80) 0x101 0x14)
        0x102 0x80) 0x103 0x14)
        0x104 0x00) 0x105 0xEE }

/-! ### Helper lemmas -/

/-- Masking with an `m`-bit field placed at offset `k` and shifting it down
extracts bits `k` through `k + m - 1`. -/
theorem maskShift (w k m : Nat) :
    (w &&& ((2 ^ m - 1) <<< k)) >>> k = w / 2 ^ k % 2 ^ m := by
  rw [← Nat.shiftRight_eq_div_pow]
  apply Nat.eq_of_testBit_eq
  intro i
  simp [Nat.testBit_shiftRight, Nat.testBit_and, Nat.testBit_shiftLeft,
    Nat.testBit_mod_two_pow, Nat.add_sub_cancel_left, Nat.le_add_right,
    Bool.and_comm]

/-- A concrete state used to exercise the ADD semantics: registers 0 and 1
hold 200 and 100. -/
def cpuC1 : CPU :=
  { initialCPU with
    registers := setAt (setAt initialCPU.registers 0 200) 1 100 }

/-! ### Claims -/

/-- Claim C1: for register values below 256 and register indices below 16,
`add_xy` stores the wrapped sum `(a + b) % 256` in register `x` (when
`x ≠ 15`), unconditionally overwrites register 15 with 1 exactly when
`a + b ≥ 256` and with 0 otherwise — regardless of register 15's prior value,
and also when `x = 15`, where the flag write is the one that survives — and
leaves every other register unchanged. -/
theorem C1_add_xy_semantics (cpu : CPU) (x y : Nat)
    (hx : x < 16) (hy : y < 16)
    (ha : cpu.registers x < 256) (hb : cpu.registers y < 256) :
    (cpu.add_xy x y).registers 0xF
        = (if 256 ≤ cpu.registers x + cpu.registers y then 1 else 0) ∧
    (x ≠ 0xF →
      (cpu.add_xy x y).registers x
        = (cpu.registers x + cpu.registers y) % 256) ∧
    (∀ i, i ≠ x → i ≠ 0xF →
      (cpu.add_xy x y).registers i = cpu.registers i) := by
  unfold CPU.add_xy setAt
  refine ⟨by simp, fun hne => ?_, fun i hix hiF => ?_⟩
  · simp [hne]
  · simp [hix, hiF]

/-- Witness for C1 at a concrete state: 200 + 100 overflows, so register 0
receives 44 and the carry flag is set. -/
theorem C1_add_xy_semantics_witness :
    (0 : Nat) < 16 ∧ (1 : Nat) < 16 ∧
    cpuC1.registers 0 < 256 ∧ cpuC1.registers 1 < 256 ∧
    ((cpuC1.add_xy 0 1).registers 0xF
        = (if 256 ≤ cpuC1.registers 0 + cpuC1.registers 1 then 1 else 0) ∧
     ((0 : Nat) ≠ 0xF →
       (cpuC1.add_xy 0 1).registers 0
         = (cpuC1.registers 0 + cpuC1.registers 1) % 256) ∧
     (∀ i, i ≠ 0 → i ≠ 0xF →
       (cpuC1.add_xy 0 1).registers i = cpuC1.registers i)) :=
  ⟨by decide, by decide, by decide, by decide,
   C1_add_xy_semantics cpuC1 0 1 (by decide) (by decide) (by decide) (by decide)⟩

/-- Claim C5: the reference program halts (20 fuel suffices) with register 0
holding 45, register 15 holding 0, and the program counter at 0x006, just
past the final HALT fetched at 0x004. -/
theorem C5_reference_program :
    (CPU.run 20 mainCPU).map (Option.map fun c =>
      (c.registers 0, c.registers 15, c.position_in_memory))
      = .ok (some (45, 0, 6)) := rfl

/-- Claim C7: decode splits any instruction word into the nibbles
`c` = bits 12-15, `x` = bits 8-11, `y` = bits 4-7, `d` = bits 0-3, and the
address operand is bits 0-11; decode is a pure function of the word (it takes
no processor state at all), and on `0x8014` it yields `c = 8`, `x = 0`,
`y = 1`, `d = 4`, `nnn = 0x014`. -/
theorem C7_decode_nibbles :
    (∀ w, decode w = (w / 4096 % 16, w / 256 % 16, w / 16 % 16, w % 16)) ∧
    (∀ w, nnnOf w = w % 4096) ∧
    decode 0x8014 = (8, 0, 1, 4) ∧ nnnOf 0x8014 = 0x014 := by
  refine ⟨fun w => ?_, fun w => Nat.and_pow_two_sub_one_eq_mod w 12, by decide, by decide⟩
  have h1 : (w &&& 0xF000) >>> 12 = w / 4096 % 16 := maskShift w 12 4
  have h2 : (w &&& 0x0F00) >>> 8 = w / 256 % 16 := maskShift w 8 4
  have h3 : (w &&& 0x00F0) >>> 4 = w / 16 % 16 := maskShift w 4 4
  have h4 : w &&& 0x000F = w % 16 := Nat.and_pow_two_sub_one_eq_mod w 4
  unfold decode
  rw [h1, h2, h3, h4]

/-- Claim C8: fetch returns `(memory[p] << 8) | memory[p+1]` whenever `p + 1`
is in bounds, aborts when it is not, and is side-effect free (it is a function
of the state returning only the word); the run loop hands the decoded
instruction a state whose program counter has already been advanced by 2. -/
theorem C8_read_opcode (cpu : CPU) :
    (cpu.position_in_memory + 1 < 4096 →
      cpu.read_opcode
        = .ok ((cpu.memory cpu.position_in_memory) <<< 8 |||
               cpu.memory (cpu.position_in_memory + 1))) ∧
    (4096 ≤ cpu.position_in_memory + 1 →
      cpu.read_opcode = .error .memoryOutOfBounds) ∧
    (∀ w, cpu.read_opcode = .ok w →
      cpu.step
        = CPU.exec { cpu with position_in_memory := cpu.position_in_memory + 2 } w) := by
  refine ⟨fun h => ?_, fun h => ?_, fun w hw => ?_⟩
  · unfold CPU.read_opcode
    rw [if_pos h]
  · unfold CPU.read_opcode
    rw [if_neg (by omega)]
  · unfold CPU.step
    rw [hw]

/-- Witness for C8 at the reference program's initial state: the fetch at
address 0 is in bounds, returns the word 0x2100, and the step dispatches on a
state whose program counter is already 2. -/
theorem C8_read_opcode_witness :
    mainCPU.position_in_memory + 1 < 4096 ∧
    mainCPU.read_opcode
      = .ok ((mainCPU.memory mainCPU.position_in_memory) <<< 8 |||
             mainCPU.memory (mainCPU.position_in_memory + 1)) ∧
    mainCPU.step
      = CPU.exec { mainCPU with position_in_memory := mainCPU.position_in_memory + 2 }
          0x2100 :=
  ⟨by decide, (C8_read_opcode mainCPU).1 (by decide),
   (C8_read_opcode mainCPU).2.2 0x2100 (by rfl)⟩

/-- Whether a fallible machine operation succeeded. -/
def isOk : Except Fault CPU → Bool
  | .ok _ => true
  | .error _ => false

/-- Successful branch of `CPU::call`: with a free slot, the (truncated)
program counter is pushed, the stack pointer is incremented and control
transfers to `addr`. -/
theorem call_ok (cpu : CPU) (addr : Nat) (h : cpu.stack_pointer < 16) :
    cpu.call addr = .ok { cpu with
      stack := setAt cpu.stack cpu.stack_pointer (cpu.position_in_memory % 65536),
      stack_pointer := cpu.stack_pointer + 1,
      position_in_memory := addr } := by
  simp only [CPU.call]
  rw [if_neg (by omega), if_pos h]

/-- Successful branch of `CPU::ret`: with a nonempty stack whose pointer is in
range, the popped slot becomes the program counter. -/
theorem ret_ok (cpu : CPU) (h1 : ¬ cpu.stack_pointer = 0)
    (h2 : cpu.stack_pointer - 1 < 16) :
    cpu.ret = .ok { cpu with
      stack_pointer := cpu.stack_pointer - 1,
      position_in_memory := cpu.stack (cpu.stack_pointer - 1) } := by
  simp only [CPU.ret]
  rw [if_neg h1, if_pos h2]

/-- `n` CALL instructions in a row with no intervening RETURN (the address is
irrelevant to the stack discipline, so one fixed target is used). -/
def callChain (addr : Nat) : Nat → CPU → Except Fault CPU
  | 0, cpu => .ok cpu
  | n + 1, cpu => (cpu.call addr).bind (callChain addr n)

/-- As long as the chain fits in the 16-slot stack it succeeds, raising the
stack pointer by its length. -/
theorem callChain_ok (addr n : Nat) : ∀ cpu : CPU,
    cpu.stack_pointer + n ≤ 16 →
    ∃ c, callChain addr n cpu = .ok c ∧
      c.stack_pointer = cpu.stack_pointer + n := by
  induction n with
  | zero => exact fun cpu _ => ⟨cpu, rfl, rfl⟩
  | succ n ih =>
    intro cpu h
    have hsp : cpu.stack_pointer < 16 := by omega
    obtain ⟨c, hc, hsc⟩ := ih
      { cpu with
        stack := setAt cpu.stack cpu.stack_pointer (cpu.position_in_memory % 65536),
        stack_pointer := cpu.stack_pointer + 1,
        position_in_memory := addr }
      (by simp only []; omega)
    refine ⟨c, ?_, by rw [hsc]; simp only []; omega⟩
    show (cpu.call addr).bind (callChain addr n) = .ok c
    rw [call_ok cpu addr hsp]
    exact hc

/-- A chain longer than the remaining free slots fails. -/
theorem callChain_fail (addr n : Nat) : ∀ cpu : CPU,
    16 < cpu.stack_pointer + n → cpu.stack_pointer ≤ 16 →
    isOk (callChain addr n cpu) = false := by
  induction n with
  | zero => intro cpu h h2; omega
  | succ n ih =>
    intro cpu h h2
    show isOk ((cpu.call addr).bind (callChain addr n)) = false
    rcases Nat.lt_or_ge cpu.stack_pointer 16 with hlt | hge
    · rw [call_ok cpu addr hlt]
      exact ih _ (by simp only []; omega) (by simp only []; omega)
    · have hsp : cpu.stack_pointer = 16 := by omega
      have hcall : cpu.call addr = .error .stackSlotOutOfBounds := by
        simp only [CPU.call]
        rw [if_neg (by omega), if_neg (by omega)]
      rw [hcall]
      rfl
/-- A concrete state with one return address on the stack, used to exercise
RETURN. -/
def cpuC3 : CPU :=
  { initialCPU with stack_pointer := 1 }

/-- Claim C2: with a free slot (and a program counter that fits in 16 bits,
as every in-memory program counter does), CALL pushes the current program
counter, increments the stack pointer and jumps to `nnn`; with the stack
pointer at or beyond capacity 16 it fails; from an empty stack, 16 nested
CALLs succeed and a 17th is fatal. -/
theorem C2_call_semantics (cpu : CPU) (addr : Nat) :
    (cpu.position_in_memory < 65536 → cpu.stack_pointer < 16 →
      cpu.call addr = .ok { cpu with
        stack := setAt cpu.stack cpu.stack_pointer cpu.position_in_memory,
        stack_pointer := cpu.stack_pointer + 1,
        position_in_memory := addr }) ∧
    (16 ≤ cpu.stack_pointer → isOk (cpu.call addr) = false) ∧
    (cpu.stack_pointer = 0 →
      isOk (callChain addr 16 cpu) = true ∧
      isOk (callChain addr 17 cpu) = false) := by
  refine ⟨fun h1 h2 => ?_, fun h => ?_, fun h => ⟨?_, ?_⟩⟩
  · have hc := call_ok cpu addr h2
    rw [Nat.mod_eq_of_lt h1] at hc
    exact hc
  · simp only [CPU.call]
    split_ifs with h1 h2
    · rfl
    · omega
    · rfl
  · obtain ⟨c, hc, _⟩ := callChain_ok addr 16 cpu (by omega)
    rw [hc]
    rfl
  · exact callChain_fail addr 17 cpu (by omega) (by omega)

/-- Witness for C2 at the all-zero state: one CALL pushes the zero program
counter, a 16-chain succeeds and a 17-chain fails. -/
theorem C2_call_semantics_witness :
    initialCPU.call 0x100 = .ok { initialCPU with
      stack := setAt initialCPU.stack initialCPU.stack_pointer
        initialCPU.position_in_memory,
      stack_pointer := initialCPU.stack_pointer + 1,
      position_in_memory := 0x100 } ∧
    isOk (callChain 0x100 16 initialCPU) = true ∧
    isOk (callChain 0x100 17 initialCPU) = false :=
  ⟨(C2_call_semantics initialCPU 0x100).1 (by decide) (by decide),
   ((C2_call_semantics initialCPU 0x100).2.2 rfl).1,
   ((C2_call_semantics initialCPU 0x100).2.2 rfl).2⟩

/-- Claim C3: with a nonempty stack (its pointer in the 0-16 range the data
model allows), RETURN decrements the stack pointer and loads the program
counter from the popped slot; with an empty stack it aborts with the
underflow fault. -/
theorem C3_ret_semantics (cpu : CPU) :
    (0 < cpu.stack_pointer → cpu.stack_pointer ≤ 16 →
      cpu.ret = .ok { cpu with
        stack_pointer := cpu.stack_pointer - 1,
        position_in_memory := cpu.stack (cpu.stack_pointer - 1) }) ∧
    (cpu.stack_pointer = 0 → cpu.ret = .error .stackUnderflowAbort) := by
  refine ⟨fun h1 h2 => ret_ok cpu (by omega) (by omega), fun h => ?_⟩
  simp only [CPU.ret]
  rw [if_pos h]

/-- Witness for C3: popping the single frame of `cpuC3` succeeds, and RETURN
on the all-zero state aborts with the underflow fault. -/
theorem C3_ret_semantics_witness :
    0 < cpuC3.stack_pointer ∧ cpuC3.stack_pointer ≤ 16 ∧
    cpuC3.ret = .ok { cpuC3 with
      stack_pointer := cpuC3.stack_pointer - 1,
      position_in_memory := cpuC3.stack (cpuC3.stack_pointer - 1) } ∧
    initialCPU.stack_pointer = 0 ∧
    initialCPU.ret = .error .stackUnderflowAbort :=
  ⟨by decide, by decide,
   (C3_ret_semantics cpuC3).1 (by decide) (by decide),
   rfl, (C3_ret_semantics initialCPU).2 rfl⟩

/-- Claim C4: from any state with a free stack slot (and an in-range program
counter), CALL immediately followed by RETURN succeeds and restores the
program counter to the value it held when CALL executed — that is, the value
already advanced past the CALL instruction by the run loop's fetch-advance. -/
theorem C4_call_then_ret (cpu : CPU) (addr : Nat)
    (hsp : cpu.stack_pointer < 16) (hpc : cpu.position_in_memory < 65536) :
    ∃ c, (cpu.call addr).bind CPU.ret = .ok c ∧
      c.position_in_memory = cpu.position_in_memory := by
  rw [call_ok cpu addr hsp]
  show ∃ c, CPU.ret _ = .ok c ∧ _
  rw [ret_ok _ (by simp only []; omega) (by simp only []; omega)]
  refine ⟨_, rfl, ?_⟩
  simp only [setAt, Nat.add_sub_cancel, if_pos rfl]
  exact Nat.mod_eq_of_lt hpc

/-- Witness for C4 at the reference program's initial state. -/
theorem C4_call_then_ret_witness :
    mainCPU.stack_pointer < 16 ∧ mainCPU.position_in_memory < 65536 ∧
    ∃ c, (mainCPU.call 0x100).bind CPU.ret = .ok c ∧
      c.position_in_memory = mainCPU.position_in_memory :=
  ⟨by decide, by decide, C4_call_then_ret mainCPU 0x100 (by decide) (by decide)⟩

/-- When the fetch succeeds, a step is the dispatch applied to the state with
the program counter already advanced by 2. -/
theorem step_eq (cpu : CPU) (w : Nat) (hro : cpu.read_opcode = .ok w) :
    cpu.step
      = CPU.exec { cpu with position_in_memory := cpu.position_in_memory + 2 } w := by
  unfold CPU.step
  rw [hro]

/-- When the fetch aborts, the step aborts with the same fault. -/
theorem step_err (cpu : CPU) (e : Fault) (hro : cpu.read_opcode = .error e) :
    cpu.step = .error e := by
  unfold CPU.step
  rw [hro]

/-- Mapping `next` over a fallible operation never produces a halt. -/
theorem map_next_ne_ok_halt (e : Except Fault CPU) (r : CPU) :
    e.map StepResult.next ≠ .ok (.halt r) := by
  cases e <;> simp [Except.map]

/-- States reachable from a start state by successful, non-halting steps of
the run loop. -/
inductive Reach : CPU → CPU → Prop
  | refl (cpu : CPU) : Reach cpu cpu
  | tail {a b c : CPU} : Reach a b → b.step = .ok (.next c) → Reach a c

/-- Reachability is transitive. -/
theorem reach_trans {a b c : CPU} (h1 : Reach a b) (h2 : Reach b c) :
    Reach a c := by
  induction h2 with
  | refl => exact h1
  | tail _ hstep ih => exact Reach.tail ih hstep

/-- A step halts only on an instruction word decoding to `(0, 0, 0, 0)`, and
the halting state differs from the fetching one only by the fetch-advance. -/
theorem step_halt_inv (cpu r : CPU) (h : cpu.step = .ok (.halt r)) :
    ∃ w, cpu.read_opcode = .ok w ∧ decode w = (0, 0, 0, 0) ∧
      r = { cpu with position_in_memory := cpu.position_in_memory + 2 } := by
  cases hro : cpu.read_opcode with
  | error e => rw [step_err cpu e hro] at h; simp at h
  | ok w =>
    rw [step_eq cpu w hro] at h
    refine ⟨w, rfl, ?_⟩
    simp only [CPU.exec] at h
    split_ifs at h with h1 h2 h3 h4
    · obtain ⟨e1, e2, e3, e4⟩ := h1
      have hd : decode w = (0, 0, 0, 0) := by
        calc decode w
            = ((decode w).1, (decode w).2.1, (decode w).2.2.1, (decode w).2.2.2) := rfl
          _ = (0, 0, 0, 0) := by rw [e1, e2, e3, e4]
      simp only [Except.ok.injEq, StepResult.halt.injEq] at h
      exact ⟨hd, h.symm⟩
    · exact absurd h (map_next_ne_ok_halt _ r)
    · exact absurd h (map_next_ne_ok_halt _ r)
    all_goals simp at h

/-- A run that returns normally does so from a reachable state whose step
halts. -/
theorem run_halt_inv : ∀ (fuel : Nat) (c₀ c : CPU),
    CPU.run fuel c₀ = .ok (some c) →
    ∃ c', Reach c₀ c' ∧ c'.step = .ok (.halt c) := by
  intro fuel
  induction fuel with
  | zero => intro c₀ c h; simp [CPU.run] at h
  | succ n ih =>
    intro c₀ c h
    unfold CPU.run at h
    cases hs : c₀.step with
    | error e => rw [hs] at h; simp at h
    | ok r =>
      rw [hs] at h
      cases r with
      | halt cH =>
        simp only [Except.ok.injEq, Option.some.injEq] at h
        exact ⟨c₀, Reach.refl c₀, by rw [hs, h]⟩
      | next cN =>
        have h' : CPU.run n cN = .ok (some c) := h
        obtain ⟨c', hr, hh⟩ := ih cN c h'
        exact ⟨c', reach_trans (Reach.tail (Reach.refl c₀) hs) hr, hh⟩

/-- A successful CALL presupposes a free slot and raises the stack pointer by
one. -/
theorem call_inv (cpu a : CPU) (addr : Nat) (h : cpu.call addr = .ok a) :
    cpu.stack_pointer < 16 ∧ a.stack_pointer = cpu.stack_pointer + 1 := by
  simp only [CPU.call] at h
  split_ifs at h with h1 h2
  simp only [Except.ok.injEq] at h
  subst h
  exact ⟨h2, rfl⟩

/-- A successful RETURN presupposes a nonempty stack and lowers the stack
pointer by one. -/
theorem ret_inv (cpu a : CPU) (h : cpu.ret = .ok a) :
    ¬ cpu.stack_pointer = 0 ∧ a.stack_pointer = cpu.stack_pointer - 1 := by
  simp only [CPU.ret] at h
  split_ifs at h with h1 h2
  simp only [Except.ok.injEq] at h
  subst h
  exact ⟨h1, rfl⟩

/-- One successful, non-halting step keeps the stack pointer within the
16-slot capacity. -/
theorem step_next_sp (cpu c : CPU) (h : cpu.stack_pointer ≤ 16)
    (hs : cpu.step = .ok (.next c)) : c.stack_pointer ≤ 16 := by
  cases hro : cpu.read_opcode with
  | error e => rw [step_err cpu e hro] at hs; simp at hs
  | ok w =>
    rw [step_eq cpu w hro] at hs
    simp only [CPU.exec] at hs
    split_ifs at hs with h1 h2 h3 h4
    · simp at hs
    · cases hr : CPU.ret { cpu with position_in_memory := cpu.position_in_memory + 2 } with
      | error e => rw [hr] at hs; simp [Except.map] at hs
      | ok a =>
        rw [hr] at hs
        simp only [Except.map, Except.ok.injEq, StepResult.next.injEq] at hs
        obtain ⟨-, hsp⟩ := ret_inv _ a hr
        rw [← hs]
        simp only [] at hsp
        omega
    · cases hr : CPU.call { cpu with position_in_memory := cpu.position_in_memory + 2 }
          (nnnOf w) with
      | error e => rw [hr] at hs; simp [Except.map] at hs
      | ok a =>
        rw [hr] at hs
        simp only [Except.map, Except.ok.injEq, StepResult.next.injEq] at hs
        obtain ⟨hlt, hsp⟩ := call_inv _ a _ hr
        rw [← hs]
        simp only [] at hsp hlt
        omega
    · simp only [Except.ok.injEq, StepResult.next.injEq] at hs
      rw [← hs]
      exact h

/-- The stack pointer stays at most 16 in every state reachable from a state
where it is at most 16. -/
theorem reach_sp_le (init s : CPU) (h0 : init.stack_pointer ≤ 16)
    (hr : Reach init s) : s.stack_pointer ≤ 16 := by
  induction hr with
  | refl => exact h0
  | tail _ hstep ih => exact step_next_sp _ _ ih hstep

/-- A state whose next instruction word is unimplemented (0xFFFF). -/
def cpuC9 : CPU :=
  { initialCPU with
    memory := setAt (setAt initialCPU.memory 0 0xFF) 1 0xFF }

/-- A state whose stack is exactly full. -/
def cpuC10 : CPU :=
  { initialCPU with stack_pointer := 16 }

/-- Claim C6: when the fetched word decodes to `(0, 0, 0, 0)` the step halts,
the run returns at once with only the program counter advanced by 2 (all
other fields untouched); and a normal return of the run loop only ever arises
from a reachable state whose fetched word decodes to `(0, 0, 0, 0)`, so HALT
is the only normal termination path. -/
theorem C6_halt_semantics (cpu : CPU) (w : Nat)
    (hro : cpu.read_opcode = .ok w) (hd : decode w = (0, 0, 0, 0)) :
    (cpu.step
        = .ok (.halt { cpu with position_in_memory := cpu.position_in_memory + 2 }) ∧
     (∀ fuel, CPU.run (fuel + 1) cpu
        = .ok (some { cpu with position_in_memory := cpu.position_in_memory + 2 }))) ∧
    (∀ (fuel : Nat) (c₀ c : CPU), CPU.run fuel c₀ = .ok (some c) →
      ∃ c' w', Reach c₀ c' ∧ c'.read_opcode = .ok w' ∧ decode w' = (0, 0, 0, 0) ∧
        c = { c' with position_in_memory := c'.position_in_memory + 2 }) := by
  have hstep : cpu.step
      = .ok (.halt { cpu with position_in_memory := cpu.position_in_memory + 2 }) := by
    rw [step_eq cpu w hro]
    simp only [CPU.exec]
    rw [if_pos (by simp [hd])]
  refine ⟨⟨hstep, fun fuel => ?_⟩, fun fuel c₀ c h => ?_⟩
  · unfold CPU.run
    rw [hstep]
  · obtain ⟨c', hr, hh⟩ := run_halt_inv fuel c₀ c h
    obtain ⟨w', hro', hd', hc⟩ := step_halt_inv c' c hh
    exact ⟨c', w', hr, hro', hd', hc⟩

/-- Witness for C6 at the all-zero state, whose first word is 0 and decodes
to HALT. -/
theorem C6_halt_semantics_witness :
    initialCPU.read_opcode = .ok 0 ∧ decode 0 = (0, 0, 0, 0) ∧
    ((initialCPU.step
        = .ok (.halt { initialCPU with
            position_in_memory := initialCPU.position_in_memory + 2 }) ∧
      (∀ fuel, CPU.run (fuel + 1) initialCPU
         = .ok (some { initialCPU with
             position_in_memory := initialCPU.position_in_memory + 2 }))) ∧
     (∀ (fuel : Nat) (c₀ c : CPU), CPU.run fuel c₀ = .ok (some c) →
       ∃ c' w', Reach c₀ c' ∧ c'.read_opcode = .ok w' ∧ decode w' = (0, 0, 0, 0) ∧
         c = { c' with position_in_memory := c'.position_in_memory + 2 })) :=
  ⟨rfl, rfl, C6_halt_semantics initialCPU 0 rfl rfl⟩

/-- Claim C9: a fetched word whose nibble pattern matches none of HALT,
RETURN, CALL or ADD makes the step abort with the unimplemented-opcode fault
carrying that very word. -/
theorem C9_unimplemented_fatal (cpu : CPU) (w c1 x1 y1 d1 : Nat)
    (hro : cpu.read_opcode = .ok w)
    (hdw : decode w = (c1, x1, y1, d1))
    (h1 : ¬(c1 = 0 ∧ x1 = 0 ∧ y1 = 0 ∧ d1 = 0))
    (h2 : ¬(c1 = 0 ∧ x1 = 0 ∧ y1 = 0xE ∧ d1 = 0xE))
    (h3 : ¬ c1 = 0x2)
    (h4 : ¬(c1 = 0x8 ∧ d1 = 0x4)) :
    cpu.step = .error (.unimplementedOpcode w) := by
  rw [step_eq cpu w hro]
  simp only [CPU.exec, hdw]
  rw [if_neg h1, if_neg h2, if_neg h3, if_neg h4]

/-- Witness for C9: the word 0xFFFF decodes to `(15, 15, 15, 15)` and aborts
the step, naming itself in the fault. -/
theorem C9_unimplemented_fatal_witness :
    cpuC9.read_opcode = .ok 0xFFFF ∧ decode 0xFFFF = (15, 15, 15, 15) ∧
    cpuC9.step = .error (.unimplementedOpcode 0xFFFF) :=
  ⟨rfl, rfl,
   C9_unimplemented_fatal cpuC9 0xFFFF 15 15 15 15 rfl rfl
     (by decide) (by decide) (by decide) (by decide)⟩

/-- Claim C10: from any start state with an empty stack, every reachable
state keeps the stack pointer at most 16, so the explicit overflow guard
(which demands a pointer strictly above 16) never fires: a CALL with the
pointer in that range never produces the guard's fault, and at exactly 16 it
aborts with the out-of-bounds indexing fault instead. -/
theorem C10_overflow_guard_dead :
    (∀ init s : CPU, init.stack_pointer = 0 → Reach init s →
      s.stack_pointer ≤ 16) ∧
    (∀ (cpu : CPU) (addr : Nat), cpu.stack_pointer ≤ 16 →
      cpu.call addr ≠ .error .stackOverflowAbort) ∧
    (∀ (cpu : CPU) (addr : Nat), cpu.stack_pointer = 16 →
      cpu.call addr = .error .stackSlotOutOfBounds) := by
  refine ⟨fun init s h0 hr => reach_sp_le init s (by omega) hr,
    fun cpu addr h => ?_, fun cpu addr h => ?_⟩
  · simp only [CPU.call]
    split_ifs with h1 h2
    · omega
    · simp
    · simp
  · simp only [CPU.call]
    rw [if_neg (by omega), if_neg (by omega)]

/-- Witness for C10: the all-zero state reaches itself with pointer 0 ≤ 16,
its CALL does not trip the guard, and a CALL on a full stack faults with the
indexing fault. -/
theorem C10_overflow_guard_dead_witness :
    initialCPU.stack_pointer = 0 ∧
    initialCPU.stack_pointer ≤ 16 ∧
    initialCPU.call 0 ≠ .error .stackOverflowAbort ∧
    cpuC10.stack_pointer = 16 ∧
    cpuC10.call 0x100 = .error .stackSlotOutOfBounds :=
  ⟨rfl,
   C10_overflow_guard_dead.1 initialCPU initialCPU rfl (Reach.refl initialCPU),
   C10_overflow_guard_dead.2.1 initialCPU 0 (by decide),
   rfl,
   C10_overflow_guard_dead.2.2 cpuC10 0x100 rfl⟩
